import Mathlib

/-!
Verification development for the commit-quiz bot's core storage and
scheduling layer (`storage.py`, scheduling parts of `main.py`).

The Python source is shallowly embedded: the SQLite-backed tables become
explicit components of a `Store` record, each storage function becomes a
Lean function over `Store`, calendar-date arithmetic (`datetime.date`
restricted to what `storage.py` uses: construction with validation,
subtraction of one day, `isoformat`) is modelled by the `Date` structure,
and Python exceptions become `Option`/`Except` results.
-/

namespace ContribQuiz

/-! ## Calendar dates

Model of Python `datetime.date` as used by `storage.py`:
proleptic Gregorian calendar, years 1..9999, validated construction,
`- timedelta(days=1)`, and `isoformat` (zero-padded `YYYY-MM-DD`). -/

structure Date where
  year : Nat
  month : Nat
  day : Nat
deriving DecidableEq

/-- Gregorian leap-year rule, as in Python's `calendar.isleap` /
`datetime.date` internals. -/
def isLeap (y : Nat) : Bool :=
  decide ((y % 4 = 0 ∧ y % 100 ≠ 0) ∨ y % 400 = 0)

/-- Number of days in month `m` of year `y` (months numbered 1..12). -/
def daysInMonth (y m : Nat) : Nat :=
  if m = 2 then (if isLeap y then 29 else 28)
  else if m = 4 ∨ m = 6 ∨ m = 9 ∨ m = 11 then 30
  else 31

/-- The validity check Python's `date(y, m, d)` constructor performs. -/
def Date.validB (d : Date) : Bool :=
  decide (1 ≤ d.year ∧ d.year ≤ 9999 ∧ 1 ≤ d.month ∧ d.month ≤ 12 ∧
    1 ≤ d.day ∧ d.day ≤ daysInMonth d.year d.month)

/-- The previous calendar day, as a total helper used to state "day
minus one calendar day".  The fallible Python subtraction itself is
`Date.minusOneDay`. -/
def Date.pred (d : Date) : Date :=
  if 1 < d.day then ⟨d.year, d.month, d.day - 1⟩
  else if 1 < d.month then ⟨d.year, d.month - 1, daysInMonth d.year (d.month - 1)⟩
  else ⟨d.year - 1, 12, 31⟩

/-- `d - timedelta(days=1)` as Python computes it: for the minimum
representable date `0001-01-01` (`date.min`) the result would fall
outside the representable range and `OverflowError` is raised,
modelled as `none`; otherwise the previous calendar day. -/
def Date.minusOneDay (d : Date) : Option Date :=
  if d = ⟨1, 1, 1⟩ then none else some d.pred

/-- `d + timedelta(days=1)`: the next calendar day. -/
def Date.succ (d : Date) : Date :=
  if d.day < daysInMonth d.year d.month then ⟨d.year, d.month, d.day + 1⟩
  else if d.month < 12 then ⟨d.year, d.month + 1, 1⟩
  else ⟨d.year + 1, 1, 1⟩

/-- Adding `n` calendar days by iterating `Date.succ`. -/
def Date.addDays (d : Date) : Nat → Date
  | 0 => d
  | n + 1 => (d.addDays n).succ

/-- Numeric key that orders valid dates chronologically. -/
def Date.key (d : Date) : Nat :=
  d.year * 10000 + d.month * 100 + d.day

/-! ### Decimal digit strings

Model of Python's decimal formatting (`f"{n:04d}"`) and parsing
(`int(s)` restricted to digit strings, which is all that well-formed
ISO dates exercise). -/

/-- The character for a single decimal digit. -/
def digitChar (n : Nat) : Char :=
  match n with
  | 0 => '0' | 1 => '1' | 2 => '2' | 3 => '3' | 4 => '4'
  | 5 => '5' | 6 => '6' | 7 => '7' | 8 => '8' | 9 => '9'
  | _ => '*'

/-- Python `f"{n:04d}"` on the year range a `date` guarantees
(`n ≤ 9999`): the four decimal digits, zero padded. -/
def pad4 (n : Nat) : List Char :=
  [digitChar (n / 1000 % 10), digitChar (n / 100 % 10),
   digitChar (n / 10 % 10), digitChar (n % 10)]

/-- Python `f"{n:02d}"` on the month/day range a `date` guarantees
(`n ≤ 99`): the two decimal digits, zero padded. -/
def pad2 (n : Nat) : List Char :=
  [digitChar (n / 10 % 10), digitChar (n % 10)]

/-- Python `date.isoformat()`: `YYYY-MM-DD`, zero padded. -/
def Date.iso (d : Date) : String :=
  ⟨pad4 d.year ++ '-' :: (pad2 d.month ++ '-' :: pad2 d.day)⟩

/-- Model of Python `s.split("-")` (single-character separator). -/
def splitDash : List Char → List (List Char)
  | [] => [[]]
  | c :: rest =>
    if c = '-' then [] :: splitDash rest
    else
      match splitDash rest with
      | [] => [[c]]
      | h :: t => (c :: h) :: t

/-- Numeric value of a decimal digit character. -/
def charDigitVal (c : Char) : Nat := c.toNat - 48

/-- Model of Python `int(s)` on the digit strings that occur in ISO
dates: succeeds exactly on nonempty all-digit strings. -/
def strToNat (l : List Char) : Option Nat :=
  if l ≠ [] ∧ l.all (fun c => c.isDigit) then
    some (l.foldl (fun a c => 10 * a + charDigitVal c) 0)
  else none

/-- `storage._iso_to_date`: split on `"-"`, convert the three fields with
`int`, and build a validated `date`; any failure is a raised exception,
modelled as `none`. -/
def isoToDate (s : String) : Option Date :=
  match splitDash s.data with
  | [a, b, c] =>
    match strToNat a, strToNat b, strToNat c with
    | some y, some m, some dd =>
      let dt : Date := ⟨y, m, dd⟩
      if dt.validB then some dt else none
    | _, _, _ => none
  | _ => none

/-! ## The store

One `Store` value models the contents of the five SQLite tables of
`storage.py`.  `results` is the append-only log; `daily` and `streaks`
are finite maps represented as functions (their primary keys are exactly
the lookup keys used by the code); `user_prefs` is kept as an
association list because `iter_all_notify_prefs` enumerates its rows;
`names` is the display-name cache.  Nullable SQL columns become
`Option`. -/

/-- One `streaks` row: `(current_streak, best_streak, last_day)`. -/
abbrev StreakRow := Nat × Nat × Option String

/-- One `user_prefs` row: `(notify_hour, notify_minute, tz)`, each
nullable in the schema. -/
abbrev PrefRow := Option Nat × Option Nat × Option String

structure Store where
  results : List (Int × Int × Bool)
  daily : Int × Int × String → Option Nat
  streaks : Int × Int → Option StreakRow
  prefs : List ((Int × Int) × PrefRow)
  names : (Int × Int) → Option String

/-- The freshly created database: every table empty. -/
def Store.empty : Store :=
  ⟨[], fun _ => none, fun _ => none, [], fun _ => none⟩

/-- Upsert into an association list keyed by `(chat_id, user_id)`
(`INSERT ... ON CONFLICT(chat_id, user_id) DO UPDATE`): replace the row
in place when the key exists, append otherwise. -/
def listUpsert {β : Type} (l : List ((Int × Int) × β)) (k : Int × Int) (v : β) :
    List ((Int × Int) × β) :=
  if l.any (fun p => p.1 == k) then
    l.map (fun p => if p.1 == k then (k, v) else p)
  else l ++ [(k, v)]

/-- Lookup in an association list keyed by `(chat_id, user_id)`. -/
def lookupKey {β : Type} (l : List ((Int × Int) × β)) (k : Int × Int) : Option β :=
  (l.find? (fun p => p.1 == k)).map (fun p => p.2)

/-! ### storage.py operations -/

/-- `storage.record_result`: append one row to `results`. -/
def record_result (s : Store) (chat user : Int) (is_correct : Bool) : Store :=
  { s with results := s.results ++ [(chat, user, is_correct)] }

/-- `storage.get_score`: `SELECT SUM(correct), COUNT(*)` over the user's
result rows (`SUM` of an empty set is NULL, read back as 0). -/
def get_score (s : Store) (chat user : Int) : Nat × Nat :=
  let rows := s.results.filter (fun r => r.1 == chat && r.2.1 == user)
  ((rows.filter (fun r => r.2.2)).length, rows.length)

/-- `storage.get_daily_count`: the stored count, or 0 when no row. -/
def get_daily_count (s : Store) (chat user : Int) (day : String) : Nat :=
  (s.daily (chat, user, day)).getD 0

/-- `storage.inc_daily_count`: transactional upsert adding 1 (creating
the row with count 1), then read the stored count back. -/
def inc_daily_count (s : Store) (chat user : Int) (day : String) : Nat × Store :=
  let newCount :=
    match s.daily (chat, user, day) with
    | none => 1
    | some k => k + 1
  (newCount,
   { s with daily := fun key => if key = (chat, user, day) then some newCount else s.daily key })

/-- `storage.mark_day_complete`: the streak transition.  `none` models a
raised exception — a malformed `day`, or the `OverflowError` Python
raises computing `day - timedelta(days=1)` when `day` is the minimum
representable date `0001-01-01` — which rolls the transaction back. -/
def mark_day_complete (s : Store) (chat user : Int) (day : String) :
    Option (StreakRow × Store) :=
  let row := (s.streaks (chat, user)).getD (0, 0, none)
  let current := row.1
  let best := row.2.1
  let last := row.2.2
  if last = some day then
    some ((current, best, last), s)
  else
    match isoToDate day with
    | none => none
    | some d =>
      match d.minusOneDay with
      | none => none
      | some yd =>
        let yesterday := yd.iso
        let cont : Bool :=
          match last with
          | some l => !(l == "") && l == yesterday
          | none => false
        let current1 := if cont then current + 1 else 1
        let best1 := max best current1
        some ((current1, best1, some day),
          { s with streaks := fun k =>
              if k = (chat, user) then some (current1, best1, some day) else s.streaks k })

/-- `storage.get_streak`: the stored row, or `(0, 0, NULL)`. -/
def get_streak (s : Store) (chat user : Int) : StreakRow :=
  (s.streaks (chat, user)).getD (0, 0, none)

/-- `storage.set_notify_time`: full replace-upsert of the pref row. -/
def set_notify_time (s : Store) (chat user : Int) (hour minute : Nat) (tz : String) : Store :=
  { s with prefs := listUpsert s.prefs (chat, user) (some hour, some minute, some tz) }

/-- `storage.get_notify_time`: `none` row means "no reminder", returned
as `.ok none`; a row with a NULL field would make `int(row[...])` raise,
modelled as `.error ()`. -/
def get_notify_time (s : Store) (chat user : Int) :
    Except Unit (Option (Nat × Nat × String)) :=
  match lookupKey s.prefs (chat, user) with
  | none => .ok none
  | some (some h, some m, some tz) => .ok (some (h, m, tz))
  | some _ => .error ()

/-- `storage.set_user_name`: last-write-wins cache; empty names are
dropped (`if not display_name: return`). -/
def set_user_name (s : Store) (chat user : Int) (display_name : String) : Store :=
  if display_name = "" then s
  else { s with names := fun k => if k = (chat, user) then some display_name else s.names k }

/-- The row filter of `iter_all_notify_prefs`: a pref row is yielded
exactly when its three notify columns are all non-NULL. -/
def prefRowFun (p : (Int × Int) × PrefRow) : Option (Int × Int × Nat × Nat × String) :=
  match p.2 with
  | (some h, some m, some tz) => some (p.1.1, p.1.2, h, m, tz)
  | _ => none

/-- `storage.iter_all_notify_prefs`: every pref row whose three notify
columns are all non-NULL, as `(chat, user, hour, minute, tz)`. -/
def iter_all_notify_prefs (s : Store) : List (Int × Int × Nat × Nat × String) :=
  s.prefs.filterMap prefRowFun

/-! ## Transaction scope

Model of the `_db` context manager of `storage.py`: run the body on the
connection; commit on normal completion, roll back and re-raise on any
exception.  A body is a function from the store to either a raised
error or a result together with the mutated store; the uncommitted
mutations are simply the returned store, so rolling back means keeping
the entry state. -/

inductive TxEnd
  | committed
  | rolledBack
deriving DecidableEq

/-- `storage._db` wrapped around a body `work`: the observable result,
observable store, and which of commit/rollback ran. -/
def _db {α : Type} (s : Store) (work : Store → Except String (α × Store)) :
    Except String α × Store × TxEnd :=
  match work s with
  | .ok (a, s1) => (.ok a, s1, .committed)
  | .error e => (.error e, s, .rolledBack)

/-! ## Corruption recovery (`init_db` / `_try_rotate_or_remove`)

The on-disk situation is modelled by the contents of the two relevant
paths (`DB_PATH` and `DB_PATH + ".corrupt"`).  A file's content carries
an identity tag, whether `PRAGMA integrity_check` passes, and its
schema (tables with their column names).  OS-level rename/delete
attempts can fail transiently; each attempt's outcome is drawn from an
oracle function, indexed by attempt number, abstracting which other
process currently locks the file. -/

/-- The schema of one database: its tables with their columns. -/
abbrev DbSchema := List (String × List String)

structure FileContent where
  tag : Nat
  intact : Bool
  tables : DbSchema
deriving DecidableEq

structure FsState where
  dbFile : Option FileContent
  corruptFile : Option FileContent
deriving DecidableEq

inductive FsOutcome
  | ok
  | permError
  | notFound
  | otherError
deriving DecidableEq

/-- `storage._integrity_ok`: false when the file is missing, otherwise
the result of the read-only integrity probe. -/
def integrity_ok (fs : FsState) : Bool :=
  match fs.dbFile with
  | none => false
  | some f => f.intact

/-- The rotation loop of `_try_rotate_or_remove`: up to `remaining`
tries of `os.replace(DB_PATH, DB_PATH + ".corrupt")` (removing a stale
`.corrupt` first).  `ok` moves the file, `notFound` means the file was
already gone, `permError`/other exceptions back off and retry.  `none`
means the loop exhausted its attempts. -/
def rotateAttempts (fs : FsState) (out : Nat → FsOutcome) : Nat → Nat → Option FsState
  | _, 0 => none
  | i, r + 1 =>
    if fs.dbFile = none then some fs
    else
      match out i with
      | .ok => some ⟨none, fs.dbFile⟩
      | .notFound => some fs
      | _ => rotateAttempts fs out (i + 1) r

/-- The deletion fallback loop of `_try_rotate_or_remove`: up to
`remaining` tries of `os.remove(DB_PATH)` guarded by an existence
check. -/
def deleteAttempts (fs : FsState) (out : Nat → FsOutcome) : Nat → Nat → Option FsState
  | _, 0 => none
  | i, r + 1 =>
    if fs.dbFile = none then some fs
    else
      match out i with
      | .ok => some { fs with dbFile := none }
      | _ => deleteAttempts fs out (i + 1) r

/-- `storage._try_rotate_or_remove`: five rename tries, then five delete
tries; `none` means the file is still locked. -/
def try_rotate_or_remove (fs : FsState) (rout dout : Nat → FsOutcome) : Option FsState :=
  match rotateAttempts fs rout 0 5 with
  | some fs1 => some fs1
  | none => deleteAttempts fs dout 0 5

/-- `sqlite3.connect(DB_PATH)`: opens the existing file, or creates an
empty database (no tables) when the path is free. -/
def connectFs (fs : FsState) : FsState × FileContent :=
  match fs.dbFile with
  | some f => (fs, f)
  | none =>
    let f : FileContent := ⟨0, true, []⟩
    ({ fs with dbFile := some f }, f)

/-- Canonical column lists of the five tables (from the `CREATE TABLE`
DDL in `storage.py`). -/
def requiredSchema : DbSchema :=
  [(("results"), [("chat_id"), ("user_id"), ("ts"), ("correct")]),
   (("daily_progress"), [("chat_id"), ("user_id"), ("day"), ("count")]),
   (("streaks"), [("chat_id"), ("user_id"), ("current_streak"), ("best_streak"), ("last_day")]),
   (("user_prefs"), [("chat_id"), ("user_id"), ("notify_hour"), ("notify_minute"), ("tz")]),
   (("user_names"), [("chat_id"), ("user_id"), ("display_name")])]

/-- `storage._ensure_table_with_schema`: create the table when missing;
when present but lacking a required column, drop and recreate it from
the canonical DDL. -/
def ensure_table_with_schema (db : DbSchema) (table : String) (cols : List String) : DbSchema :=
  match db.find? (fun p => p.1 == table) with
  | none => db ++ [(table, cols)]
  | some p =>
    if cols.all (fun c => p.2.contains c) then db
    else (db.filter (fun q => !(q.1 == table))) ++ [(table, cols)]

/-- `storage._create_or_migrate_schema` over the five tables. -/
def create_or_migrate_schema (db : DbSchema) : DbSchema :=
  requiredSchema.foldl (fun acc p => ensure_table_with_schema acc p.1 p.2) db

/-- Every required table exists and has every required column. -/
def schemaCompleteB (db : DbSchema) : Bool :=
  requiredSchema.all (fun p =>
    match db.find? (fun q => q.1 == p.1) with
    | some q => p.2.all (fun c => q.2.contains c)
    | none => false)

/-- `storage.init_db`: when an existing file fails the integrity probe,
rotate or remove it (raising `StoreLockedError`, modelled as `none`,
when it stays locked); then connect — creating a fresh file if the path
is now free — and ensure the schema. -/
def init_db (fs : FsState) (rout dout : Nat → FsOutcome) : Option FsState :=
  let step1 : Option FsState :=
    if fs.dbFile.isSome && !(integrity_ok fs) then
      try_rotate_or_remove fs rout dout
    else some fs
  match step1 with
  | none => none
  | some fs1 =>
    let c := connectFs fs1
    let tables1 := create_or_migrate_schema c.2.tables
    some { c.1 with dbFile := some { c.2 with tables := tables1 } }

/-! ## Reminder scheduling (`main.py`)

The live recurring-timer facility (PTB's `JobQueue`) is modelled as the
list of its active jobs.  A daily-reminder job carries the fields
`run_daily` is called with: its name, the chat, the payload
`{user_id, tz}`, and the firing time. -/

structure Job where
  name : String
  chatId : Int
  userId : Int
  hour : Nat
  minute : Nat
  tz : String
deriving DecidableEq

abbrev JobQueue := List Job

/-- Python `s.startswith(pre)`. -/
def listIsPre : List Char → List Char → Bool
  | [], _ => true
  | _ :: _, [] => false
  | a :: as, b :: bs => (a == b) && listIsPre as bs

def strStartsWith (s pre : String) : Bool :=
  listIsPre pre.data s.data

/-- The deterministic job name `f"daily-{chat_id}-{user_id}"`. -/
def jobName (chat user : Int) : String :=
  ⟨('d' :: 'a' :: 'i' :: 'l' :: 'y' :: '-' :: []) ++
    (toString chat).data ++ '-' :: (toString user).data⟩

/-- The prefix `"daily-"` used to tag reminder jobs. -/
def dailyTag : String :=
  ⟨('d' :: 'a' :: 'i' :: 'l' :: 'y' :: '-' :: [])⟩

/-- Is this job tagged as a daily reminder
(`j.name and j.name.startswith("daily-")`)? -/
def isDailyJob (j : Job) : Bool :=
  !(j.name == ("" : String)) && strStartsWith j.name dailyTag

/-- The job `run_daily` installs for one pref row. -/
def mkDailyJob (row : Int × Int × Nat × Nat × String) : Job :=
  ⟨jobName row.1 row.2.1, row.1, row.2.1, row.2.2.1, row.2.2.2.1, row.2.2.2.2⟩

/-- `main._reschedule_all_jobs`: remove every job tagged `daily-*`, then
install one `run_daily` job per row of `iter_all_notify_prefs`. -/
def reschedule_all_jobs (s : Store) (jq : JobQueue) : JobQueue :=
  (jq.filter (fun j => !(isDailyJob j))) ++ (iter_all_notify_prefs s).map mkDailyJob

/-- The daily-reminder jobs currently active in the queue. -/
def dailyJobsOf (jq : JobQueue) : JobQueue :=
  jq.filter isDailyJob

/-- `main.unnotify` (the parts that touch state): cache the display
name, then remove every job named `daily-<chat>-<user>`; `removed`
reports whether any existed.  The `user_prefs` table is not touched. -/
def unnotify (s : Store) (jq : JobQueue) (chat user : Int) (display_name : String) :
    Store × JobQueue × Bool :=
  let s1 := set_user_name s chat user display_name
  let matching := jq.filter (fun j => j.name == jobName chat user)
  (s1, jq.filter (fun j => !(j.name == jobName chat user)), !matching.isEmpty)

/-! ## Derived iteration helpers used by the claims -/

/-- Run `mark_day_complete` over a list of days in order, stopping at a
raised exception. -/
def markDays (s : Store) (chat user : Int) : List String → Option Store
  | [] => some s
  | d :: rest =>
    match mark_day_complete s chat user d with
    | none => none
    | some r => markDays r.2 chat user rest

/-- The ISO strings of the `k + 1` consecutive days `d, d+1, …, d+k`. -/
def consecDays (d : Date) (k : Nat) : List String :=
  (List.range (k + 1)).map (fun i => (d.addDays i).iso)

/-- The ISO strings of the `j` days following `e`. -/
def consecFrom (e : Date) (j : Nat) : List String :=
  (List.range j).map (fun i => (e.addDays (i + 1)).iso)

/-- Run `inc_daily_count` `n` times, collecting the returned counts. -/
def incCalls (s : Store) (chat user : Int) (day : String) : Nat → List Nat × Store
  | 0 => ([], s)
  | n + 1 =>
    let r := inc_daily_count s chat user day
    let rest := incCalls r.2 chat user day n
    (r.1 :: rest.1, rest.2)

/-- The documented `streaks` invariant (spec §3):
`best_streak ≥ current_streak`, and a positive current streak implies
`last_day` is set. -/
def StreakInv (s : Store) : Prop :=
  ∀ chat user cur bst last, s.streaks (chat, user) = some (cur, bst, last) →
    cur ≤ bst ∧ (0 < cur → last ≠ none)

/-- The stored best streak of a key (0 when no row). -/
def bestOf (s : Store) (chat user : Int) : Nat :=
  ((s.streaks (chat, user)).getD (0, 0, none)).2.1

/-- The states reachable from the empty database by the state-changing
operations `storage.py` exposes (the read operations leave the store
untouched).  A `mark_day_complete` call that raises rolls back, so it
produces no new state. -/
inductive Reachable : Store → Prop
  | empty : Reachable Store.empty
  | record (s : Store) (c u : Int) (b : Bool) :
      Reachable s → Reachable (record_result s c u b)
  | inc (s : Store) (c u : Int) (day : String) :
      Reachable s → Reachable (inc_daily_count s c u day).2
  | mark (s : Store) (c u : Int) (day : String) (t : StreakRow) (s1 : Store) :
      Reachable s → mark_day_complete s c u day = some (t, s1) → Reachable s1
  | notifyTime (s : Store) (c u : Int) (h m : Nat) (tz : String) :
      Reachable s → Reachable (set_notify_time s c u h m tz)
  | name (s : Store) (c u : Int) (n : String) :
      Reachable s → Reachable (set_user_name s c u n)

/-! ## Remaining definitions used by the lemmas and witnesses -/

/-- Bounds under which `Date.iso` is the exact `isoformat` output; they
hold for every valid date and for `pred`/`succ` of valid dates. -/
def Date.small (d : Date) : Prop :=
  d.year ≤ 9999 ∧ d.month ≤ 99 ∧ d.day ≤ 99

/-- Concrete stores used by closed witnesses. -/
def wStore1 : Store :=
  { Store.empty with streaks := fun k =>
      if k = ((1 : Int), (2 : Int)) then some (3, 4, some ("2024-05-05")) else none }

def wStore2 : Store :=
  { Store.empty with streaks := fun k =>
      if k = ((1 : Int), (2 : Int)) then some (1, 1, some ("2024-05-05")) else none }

def wStore3 : Store :=
  { Store.empty with streaks := fun k =>
      if k = ((1 : Int), (2 : Int)) then some (3, 5, some (Date.iso ⟨2024, 3, 10⟩)) else none }

/-- A store with two persisted reminders, for the scheduling witnesses. -/
def wStoreP : Store :=
  { Store.empty with prefs :=
      [(((1 : Int), (2 : Int)), (some 7, some 30, some ("Asia/Kolkata"))),
       (((3 : Int), (4 : Int)), (some 8, some 0, some ("UTC")))] }

/-- A queue holding the daily job of `(1, 2)`, for the `unnotify`
witness. -/
def wJq : JobQueue :=
  [mkDailyJob (1, 2, 7, 30, ("Asia/Kolkata"))]

/-- Concrete transaction bodies for the transaction-scope witness. -/
def workOk : Store → Except String (Nat × Store) := fun s => .ok (7, s)

def workErr : Store → Except String (Nat × Store) := fun _ => .error ("boom")

/-! ## Lemmas: digits and ISO strings -/

theorem digitChar_isDigit (d : Nat) (h : d < 10) : (digitChar d).isDigit = true := by
  interval_cases d <;> decide

theorem charDigitVal_digitChar (d : Nat) (h : d < 10) : charDigitVal (digitChar d) = d := by
  interval_cases d <;> decide

theorem digitChar_ne_dash (d : Nat) : digitChar d ≠ '-' := by
  unfold digitChar
  split <;> decide

theorem strToNat_pad4 (n : Nat) (h : n ≤ 9999) : strToNat (pad4 n) = some n := by
  have h1 : n / 1000 % 10 < 10 := Nat.mod_lt _ (by omega)
  have h2 : n / 100 % 10 < 10 := Nat.mod_lt _ (by omega)
  have h3 : n / 10 % 10 < 10 := Nat.mod_lt _ (by omega)
  have h4 : n % 10 < 10 := Nat.mod_lt _ (by omega)
  unfold strToNat pad4
  rw [if_pos]
  · simp only [List.foldl, Option.some.injEq,
      charDigitVal_digitChar _ h1, charDigitVal_digitChar _ h2,
      charDigitVal_digitChar _ h3, charDigitVal_digitChar _ h4]
    omega
  · refine ⟨by simp, ?_⟩
    simp only [List.all_cons, List.all_nil, Bool.and_true,
      digitChar_isDigit _ h1, digitChar_isDigit _ h2,
      digitChar_isDigit _ h3, digitChar_isDigit _ h4, Bool.and_self]

theorem strToNat_pad2 (n : Nat) (h : n ≤ 99) : strToNat (pad2 n) = some n := by
  have h3 : n / 10 % 10 < 10 := Nat.mod_lt _ (by omega)
  have h4 : n % 10 < 10 := Nat.mod_lt _ (by omega)
  unfold strToNat pad2
  rw [if_pos]
  · simp only [List.foldl, Option.some.injEq,
      charDigitVal_digitChar _ h3, charDigitVal_digitChar _ h4]
    omega
  · refine ⟨by simp, ?_⟩
    simp only [List.all_cons, List.all_nil, Bool.and_true,
      digitChar_isDigit _ h3, digitChar_isDigit _ h4, Bool.and_self]

theorem pad4_no_dash (n : Nat) : '-' ∉ pad4 n := by
  unfold pad4
  intro hmem
  simp only [List.mem_cons, List.not_mem_nil, or_false] at hmem
  rcases hmem with h | h | h | h <;> exact digitChar_ne_dash _ h.symm

theorem pad2_no_dash (n : Nat) : '-' ∉ pad2 n := by
  unfold pad2
  intro hmem
  simp only [List.mem_cons, List.not_mem_nil, or_false] at hmem
  rcases hmem with h | h <;> exact digitChar_ne_dash _ h.symm

theorem splitDash_no_dash (l : List Char) (h : '-' ∉ l) : splitDash l = [l] := by
  induction l with
  | nil => rfl
  | cons c rest ih =>
    have hc : ¬ c = '-' := fun hc => h (hc ▸ List.mem_cons_self c rest)
    have hrest : '-' ∉ rest := fun hm => h (List.mem_cons_of_mem c hm)
    unfold splitDash
    rw [if_neg hc, ih hrest]

theorem splitDash_append (a rest : List Char) (h : '-' ∉ a) :
    splitDash (a ++ '-' :: rest) = a :: splitDash rest := by
  induction a with
  | nil => simp [splitDash]
  | cons c a1 ih =>
    have hc : ¬ c = '-' := fun hc => h (hc ▸ List.mem_cons_self c a1)
    have ha1 : '-' ∉ a1 := fun hm => h (List.mem_cons_of_mem c hm)
    show splitDash (c :: (a1 ++ '-' :: rest)) = (c :: a1) :: splitDash rest
    simp only [splitDash]
    rw [if_neg hc, ih ha1]

theorem splitDash_iso (d : Date) :
    splitDash (Date.iso d).data = [pad4 d.year, pad2 d.month, pad2 d.day] := by
  show splitDash (pad4 d.year ++ '-' :: (pad2 d.month ++ '-' :: pad2 d.day)) = _
  rw [splitDash_append _ _ (pad4_no_dash _), splitDash_append _ _ (pad2_no_dash _),
    splitDash_no_dash _ (pad2_no_dash _)]

theorem isoToDate_iso (d : Date) (hs : d.small) (hv : d.validB = true) :
    isoToDate d.iso = some d := by
  obtain ⟨h1, h2, h3⟩ := hs
  unfold isoToDate
  rw [splitDash_iso]
  simp only [strToNat_pad4 _ h1, strToNat_pad2 _ h2, strToNat_pad2 _ h3]
  simp [hv]

theorem iso_inj (a b : Date) (ha : a.small) (hb : b.small) (h : a.iso = b.iso) : a = b := by
  obtain ⟨ha1, ha2, ha3⟩ := ha
  obtain ⟨hb1, hb2, hb3⟩ := hb
  have hd : splitDash (Date.iso a).data = splitDash (Date.iso b).data := by rw [h]
  rw [splitDash_iso, splitDash_iso] at hd
  simp only [List.cons.injEq, and_true] at hd
  obtain ⟨hy, hm, hdd⟩ := hd
  have ey : some a.year = some b.year := by
    rw [← strToNat_pad4 _ ha1, ← strToNat_pad4 _ hb1, hy]
  have em : some a.month = some b.month := by
    rw [← strToNat_pad2 _ ha2, ← strToNat_pad2 _ hb2, hm]
  have ed : some a.day = some b.day := by
    rw [← strToNat_pad2 _ ha3, ← strToNat_pad2 _ hb3, hdd]
  cases a; cases b
  simp only [Option.some.injEq] at ey em ed
  simp_all

theorem iso_ne_empty (d : Date) : d.iso ≠ ("" : String) := by
  intro h
  have : (Date.iso d).data = ([] : List Char) := by rw [h]
  simp [Date.iso, pad4] at this

/-! ## Lemmas: calendar arithmetic -/

theorem validB_iff (d : Date) :
    d.validB = true ↔ (1 ≤ d.year ∧ d.year ≤ 9999 ∧ 1 ≤ d.month ∧ d.month ≤ 12 ∧
      1 ≤ d.day ∧ d.day ≤ daysInMonth d.year d.month) := by
  simp [Date.validB]

theorem one_le_daysInMonth (y m : Nat) : 1 ≤ daysInMonth y m := by
  unfold daysInMonth
  split_ifs <;> omega

theorem daysInMonth_le_31 (y m : Nat) : daysInMonth y m ≤ 31 := by
  unfold daysInMonth
  split_ifs <;> omega

theorem daysInMonth_december (y : Nat) : daysInMonth y 12 = 31 := rfl

theorem valid_small {d : Date} (h : d.validB = true) : d.small := by
  rw [validB_iff] at h
  have := daysInMonth_le_31 d.year d.month
  exact ⟨by omega, by omega, by omega⟩

theorem year_mk (y m d : Nat) : (Date.mk y m d).year = y := rfl

theorem month_mk (y m d : Nat) : (Date.mk y m d).month = m := rfl

theorem day_mk (y m d : Nat) : (Date.mk y m d).day = d := rfl

theorem pred_small {d : Date} (h : d.small) : (Date.pred d).small := by
  obtain ⟨y, m, dd⟩ := d
  obtain ⟨h1, h2, h3⟩ := h
  simp only [year_mk, month_mk, day_mk] at h1 h2 h3
  have h31 : daysInMonth y (m - 1) ≤ 31 := daysInMonth_le_31 _ _
  unfold Date.pred Date.small
  simp only [year_mk, month_mk, day_mk]
  split_ifs <;> simp only [year_mk, month_mk, day_mk] <;> omega

theorem succ_validB {d : Date} (hv : d.validB = true) (hy : d.year < 9999) :
    (Date.succ d).validB = true := by
  obtain ⟨y, m, dd⟩ := d
  rw [validB_iff] at hv
  simp only [year_mk, month_mk, day_mk] at hv hy
  have g1 := one_le_daysInMonth y (m + 1)
  have g2 := one_le_daysInMonth (y + 1) 1
  unfold Date.succ
  simp only [year_mk, month_mk, day_mk]
  split_ifs with hd hm <;> rw [validB_iff] <;>
    simp only [year_mk, month_mk, day_mk] <;> omega

theorem succ_year_le (d : Date) : (Date.succ d).year ≤ d.year + 1 := by
  obtain ⟨y, m, dd⟩ := d
  unfold Date.succ
  simp only [year_mk, month_mk, day_mk]
  split_ifs <;> simp only [year_mk, month_mk, day_mk] <;> omega

theorem pred_succ {d : Date} (hv : d.validB = true) : (Date.succ d).pred = d := by
  obtain ⟨y, m, dd⟩ := d
  rw [validB_iff] at hv
  simp only [year_mk, month_mk, day_mk] at hv
  obtain ⟨a1, a2, a3, a4, a5, a6⟩ := hv
  unfold Date.succ
  simp only [year_mk, month_mk, day_mk]
  split_ifs with hd hm
  · unfold Date.pred
    simp only [year_mk, month_mk, day_mk]
    rw [if_pos (show 1 < dd + 1 by omega)]
    simp only [Date.mk.injEq, true_and, and_true]
    omega
  · unfold Date.pred
    simp only [year_mk, month_mk, day_mk]
    rw [if_neg (by omega), if_pos (show 1 < m + 1 by omega)]
    simp only [Nat.add_sub_cancel, Date.mk.injEq, true_and, and_true]
    omega
  · unfold Date.pred
    simp only [year_mk, month_mk, day_mk]
    rw [if_neg (by omega), if_neg (by omega)]
    have hmm : m = 12 := by omega
    have h31 : daysInMonth y 12 = 31 := daysInMonth_december y
    subst hmm
    simp only [Date.mk.injEq, true_and, and_true]
    omega

theorem minusOneDay_eq {d : Date} (h : d ≠ ⟨1, 1, 1⟩) :
    Date.minusOneDay d = some (Date.pred d) := by
  unfold Date.minusOneDay
  rw [if_neg h]

theorem succ_ne_min {e : Date} (hv : e.validB = true) : Date.succ e ≠ ⟨1, 1, 1⟩ := by
  obtain ⟨y, m, dd⟩ := e
  rw [validB_iff] at hv
  simp only [year_mk, month_mk, day_mk] at hv
  unfold Date.succ
  simp only [year_mk, month_mk, day_mk]
  split_ifs <;> intro h <;> rw [Date.mk.injEq] at h <;> omega

theorem succ_ne {d : Date} : Date.succ d ≠ d := by
  obtain ⟨y, m, dd⟩ := d
  unfold Date.succ
  simp only [year_mk, month_mk, day_mk]
  split_ifs <;> intro h <;> rw [Date.mk.injEq] at h <;> omega

theorem key_pred_lt {d : Date} (hv : d.validB = true) : (Date.pred d).key < d.key := by
  obtain ⟨y, m, dd⟩ := d
  rw [validB_iff] at hv
  simp only [year_mk, month_mk, day_mk] at hv
  obtain ⟨a1, a2, a3, a4, a5, a6⟩ := hv
  have h31 : daysInMonth y (m - 1) ≤ 31 := daysInMonth_le_31 _ _
  unfold Date.pred Date.key
  simp only [year_mk, month_mk, day_mk]
  split_ifs <;> simp only [year_mk, month_mk, day_mk] <;> omega

theorem key_lt_ne {a b : Date} (h : a.key < b.key) : a ≠ b := by
  intro he
  rw [he] at h
  omega

theorem addDays_shift (e : Date) (n : Nat) :
    (Date.succ e).addDays n = e.addDays (n + 1) := by
  induction n with
  | zero => rfl
  | succ k ih =>
    show Date.succ ((Date.succ e).addDays k) = Date.succ (e.addDays (k + 1))
    rw [ih]

theorem addDays_validB {d : Date} (hv : d.validB = true) :
    ∀ k, d.year + k ≤ 9999 →
      (d.addDays k).validB = true ∧ (d.addDays k).year ≤ d.year + k := by
  intro k
  induction k with
  | zero => exact fun _ => ⟨hv, Nat.le_refl _⟩
  | succ j ih =>
    intro hy
    obtain ⟨ihv, ihy⟩ := ih (by omega)
    constructor
    · exact succ_validB ihv (by omega)
    · calc (Date.succ (d.addDays j)).year ≤ (d.addDays j).year + 1 := succ_year_le _
        _ ≤ d.year + (j + 1) := by omega

/-! ## Claim C2: idempotence of `mark_day_complete` per day -/

/-- Shared helper: when the stored `last_day` already equals `day`,
`mark_day_complete` returns the stored row and leaves the store
untouched. -/
theorem mark_repeat_day (s : Store) (c u : Int) (day : String) (cur bst : Nat)
    (h : s.streaks (c, u) = some (cur, bst, some day)) :
    mark_day_complete s c u day = some ((cur, bst, some day), s) := by
  unfold mark_day_complete
  rw [h]
  simp

/-- C2.  `mark_day_complete` is idempotent per day: when the stored
`last_completed_day` equals `day` it returns the stored triple with the
store completely unchanged, and a second call with the same day right
after any successful first call returns exactly the first call's
result, again without changing the store. -/
theorem mark_day_complete_idempotent :
    (∀ (s : Store) (c u : Int) (day : String) (cur bst : Nat),
      s.streaks (c, u) = some (cur, bst, some day) →
      mark_day_complete s c u day = some ((cur, bst, some day), s)) ∧
    (∀ (s : Store) (c u : Int) (day : String) (t : StreakRow) (s1 : Store),
      mark_day_complete s c u day = some (t, s1) →
      mark_day_complete s1 c u day = some (t, s1)) := by
  refine ⟨mark_repeat_day, ?_⟩
  intro s c u day t s1 h
  simp only [mark_day_complete] at h
  split_ifs at h with hc
  · -- repeat-day branch: the store was left unchanged
    simp only [Option.some.injEq, Prod.mk.injEq] at h
    obtain ⟨ht, hs⟩ := h
    subst hs
    simp only [mark_day_complete]
    rw [if_pos hc, ht]
  · -- update branch
    rcases hd : isoToDate day with _ | d
    · rw [hd] at h
      simp at h
    · rw [hd] at h
      rcases hmd : d.minusOneDay with _ | yd
      · simp [hmd] at h
      · simp only [hmd, Option.some.injEq, Prod.mk.injEq] at h
        obtain ⟨ht, hs⟩ := h
        rw [← ht]
        apply mark_repeat_day
        rw [← hs]
        simp

theorem mark_day_complete_idempotent_witness :
    mark_day_complete wStore1 1 2 ("2024-05-05") = some ((3, 4, some ("2024-05-05")), wStore1) ∧
    mark_day_complete wStore2 1 2 ("2024-05-05") = some ((1, 1, some ("2024-05-05")), wStore2) :=
  ⟨mark_day_complete_idempotent.1 wStore1 1 2 ("2024-05-05") 3 4 rfl,
   mark_day_complete_idempotent.2 Store.empty 1 2 ("2024-05-05")
     ((1, 1, some ("2024-05-05"))) wStore2 rfl⟩

/-! ## Claim C4: `increment_daily_count` -/

/-- Shared helper: starting from a stored count `m`, `n` successive
calls return `m+1, …, m+n` and leave `m+n` stored. -/
theorem incCalls_from (c u : Int) (day : String) :
    ∀ (n : Nat) (s : Store) (m : Nat), s.daily (c, u, day) = some m →
      (incCalls s c u day n).1 = List.range' (m + 1) n ∧
      (incCalls s c u day n).2.daily (c, u, day) = some (m + n) := by
  intro n
  induction n with
  | zero => intro s m h; exact ⟨rfl, h⟩
  | succ k ih =>
    intro s m h
    have hret : (inc_daily_count s c u day).1 = m + 1 := by
      unfold inc_daily_count
      rw [h]
    have hstore : (inc_daily_count s c u day).2.daily (c, u, day) = some (m + 1) := by
      unfold inc_daily_count
      rw [h]
      simp
    obtain ⟨ih1, ih2⟩ := ih (inc_daily_count s c u day).2 (m + 1) hstore
    constructor
    · show (inc_daily_count s c u day).1 :: (incCalls (inc_daily_count s c u day).2 c u day k).1 =
        List.range' (m + 1) (k + 1)
      rw [hret, ih1, List.range'_succ]
    · show (incCalls (inc_daily_count s c u day).2 c u day k).2.daily (c, u, day) = some (m + (k + 1))
      rw [ih2]
      congr 1
      omega

/-- C4.  `increment_daily_count` creates an absent row with count 1 and
otherwise adds 1, returning the new count; from no prior row, `n`
successive calls return `1, …, n` and leave the stored count at `n`. -/
theorem inc_daily_count_spec :
    (∀ (s : Store) (c u : Int) (day : String),
      (inc_daily_count s c u day).1 = (s.daily (c, u, day)).getD 0 + 1 ∧
      (inc_daily_count s c u day).2.daily (c, u, day) =
        some ((s.daily (c, u, day)).getD 0 + 1)) ∧
    (∀ (s : Store) (c u : Int) (day : String) (n : Nat), s.daily (c, u, day) = none →
      (incCalls s c u day n).1 = List.range' 1 n ∧
      (0 < n → (incCalls s c u day n).2.daily (c, u, day) = some n)) := by
  constructor
  · intro s c u day
    unfold inc_daily_count
    rcases hd : s.daily (c, u, day) with _ | k <;> simp [hd]
  · intro s c u day n h
    cases n with
    | zero => exact ⟨rfl, by omega⟩
    | succ k =>
      have hret : (inc_daily_count s c u day).1 = 1 := by
        unfold inc_daily_count
        rw [h]
      have hstore : (inc_daily_count s c u day).2.daily (c, u, day) = some 1 := by
        unfold inc_daily_count
        rw [h]
        simp
      obtain ⟨ih1, ih2⟩ := incCalls_from c u day k (inc_daily_count s c u day).2 1 hstore
      constructor
      · show (inc_daily_count s c u day).1 :: (incCalls (inc_daily_count s c u day).2 c u day k).1 =
          List.range' 1 (k + 1)
        rw [hret, ih1, List.range'_succ]
      · intro _
        show (incCalls (inc_daily_count s c u day).2 c u day k).2.daily (c, u, day) = some (k + 1)
        rw [ih2]
        congr 1
        omega

theorem inc_daily_count_spec_witness :
    (incCalls Store.empty 1 2 ("2024-01-01") 5).1 = List.range' 1 5 ∧
    (0 < 5 → (incCalls Store.empty 1 2 ("2024-01-01") 5).2.daily (1, 2, ("2024-01-01")) = some 5) :=
  inc_daily_count_spec.2 Store.empty 1 2 ("2024-01-01") 5 rfl

/-! ## Claim C5: reads on a key with no prior writes -/

/-- C5.  On a key with no prior writes, every read returns its
documented empty value: daily count 0, streak `(0, 0, NULL)`, reminder
absent (and no exception), score `(0, 0)`. -/
theorem empty_key_reads :
    ∀ (s : Store) (c u : Int) (day : String),
      s.daily (c, u, day) = none →
      s.streaks (c, u) = none →
      lookupKey s.prefs (c, u) = none →
      (∀ r ∈ s.results, ¬(r.1 = c ∧ r.2.1 = u)) →
      get_daily_count s c u day = 0 ∧
      get_streak s c u = (0, 0, none) ∧
      get_notify_time s c u = .ok none ∧
      get_score s c u = (0, 0) := by
  intro s c u day h1 h2 h3 h4
  refine ⟨?_, ?_, ?_, ?_⟩
  · unfold get_daily_count
    rw [h1]
    rfl
  · unfold get_streak
    rw [h2]
    rfl
  · unfold get_notify_time
    rw [h3]
  · unfold get_score
    have hfil : s.results.filter (fun r => r.1 == c && r.2.1 == u) = [] := by
      rw [List.filter_eq_nil_iff]
      intro r hr
      have := h4 r hr
      simp only [Bool.and_eq_true, beq_iff_eq]
      tauto
    simp [hfil]

theorem empty_key_reads_witness :
    get_daily_count Store.empty 1 2 ("2024-01-01") = 0 ∧
    get_streak Store.empty 1 2 = (0, 0, none) ∧
    get_notify_time Store.empty 1 2 = .ok none ∧
    get_score Store.empty 1 2 = (0, 0) :=
  empty_key_reads Store.empty 1 2 ("2024-01-01") rfl rfl rfl (by simp [Store.empty])

/-! ## Shared helper: the update branch of `mark_day_complete` -/

/-- When the stored `last_day` differs from `day` and `day` parses,
`mark_day_complete` increments the streak exactly when the stored
`last_day` is the ISO form of the previous calendar day, and otherwise
resets it to 1; it stores and returns the updated row. -/
theorem mark_gap_or_next (s : Store) (c u : Int) (day : String) (d : Date)
    (cur bst : Nat) (last : Option String)
    (hrow : (s.streaks (c, u)).getD (0, 0, none) = (cur, bst, last))
    (hne : last ≠ some day)
    (hpd : isoToDate day = some d)
    (hmin : d ≠ ⟨1, 1, 1⟩) :
    mark_day_complete s c u day =
      some (((if last = some ((Date.pred d).iso) then cur + 1 else 1),
             max bst (if last = some ((Date.pred d).iso) then cur + 1 else 1), some day),
        { s with streaks := fun k =>
            if k = (c, u) then
              some ((if last = some ((Date.pred d).iso) then cur + 1 else 1),
                    max bst (if last = some ((Date.pred d).iso) then cur + 1 else 1), some day)
            else s.streaks k }) := by
  rcases last with _ | l
  · simp only [mark_day_complete, hrow, hpd, minusOneDay_eq hmin]
    rw [if_neg hne]
    simp
  · simp only [mark_day_complete, hrow, hpd, minusOneDay_eq hmin]
    rw [if_neg hne]
    by_cases he : l = (Date.pred d).iso
    · subst he
      have h0 : (Date.pred d).iso ≠ ("" : String) := iso_ne_empty _
      simp [h0]
    · simp [he]

/-! ## Claim C1: the streak transition and consecutive days -/

/-- Shared helper: peeling one day off `consecFrom`. -/
theorem consecFrom_succ (e : Date) (jj : Nat) :
    consecFrom e (jj + 1) = (Date.succ e).iso :: consecFrom (Date.succ e) jj := by
  unfold consecFrom
  rw [List.range_succ_eq_map, List.map_cons, List.map_map]
  have h2 : List.map ((fun i => (e.addDays (i + 1)).iso) ∘ Nat.succ) (List.range jj) =
      List.map (fun i => ((Date.succ e).addDays (i + 1)).iso) (List.range jj) := by
    apply List.map_congr_left
    intro i _
    show (e.addDays (i + 1 + 1)).iso = ((Date.succ e).addDays (i + 1)).iso
    rw [addDays_shift]
  rw [h2]
  rfl

/-- Shared helper: `consecDays` is the first day followed by the rest. -/
theorem consecDays_cons (d : Date) (k : Nat) :
    consecDays d k = d.iso :: consecFrom d k := by
  unfold consecDays consecFrom
  rw [List.range_succ_eq_map, List.map_cons, List.map_map]
  rfl

/-- Shared helper: from a state whose row is `(n, n, e.iso)`, marking
the next `j` consecutive days yields the row
`(n + j, n + j, (e + j days).iso)`. -/
theorem markConsec (c u : Int) :
    ∀ (j : Nat) (e : Date) (n : Nat) (s : Store),
      e.validB = true → e.year + j ≤ 9999 →
      s.streaks (c, u) = some (n, n, some e.iso) →
      ∃ s1, markDays s c u (consecFrom e j) = some s1 ∧
        s1.streaks (c, u) = some (n + j, n + j, some ((e.addDays j).iso)) := by
  intro j
  induction j with
  | zero =>
    intro e n s hv hy hrow
    exact ⟨s, rfl, by simpa using hrow⟩
  | succ jj ih =>
    intro e n s hv hy hrow
    have hsv : (Date.succ e).validB = true := succ_validB hv (by omega)
    have hne : (some e.iso : Option String) ≠ some ((Date.succ e).iso) := by
      intro hii
      exact succ_ne ((iso_inj _ _ (valid_small hsv) (valid_small hv)
        (Option.some.inj hii).symm))
    have hpd : isoToDate (Date.succ e).iso = some (Date.succ e) :=
      isoToDate_iso _ (valid_small hsv) hsv
    have hrow' : (s.streaks (c, u)).getD (0, 0, none) = (n, n, some e.iso) := by
      rw [hrow]; rfl
    have hmark := mark_gap_or_next s c u ((Date.succ e).iso) (Date.succ e) n n
      (some e.iso) hrow' hne hpd (succ_ne_min hv)
    rw [pred_succ hv, if_pos rfl] at hmark
    have hmax : max n (n + 1) = n + 1 := by omega
    rw [hmax] at hmark
    rw [consecFrom_succ]
    simp only [markDays, hmark]
    have hrow2 : ({ s with streaks := fun k =>
        if k = (c, u) then some (n + 1, n + 1, some ((Date.succ e).iso)) else s.streaks k } :
          Store).streaks (c, u) = some (n + 1, n + 1, some ((Date.succ e).iso)) := by
      simp
    have hy2 : (Date.succ e).year + jj ≤ 9999 := by
      have := succ_year_le e
      omega
    obtain ⟨s1, hms, hrow1⟩ := ih (Date.succ e) (n + 1) _ hsv hy2 hrow2
    refine ⟨s1, hms, ?_⟩
    rw [hrow1, addDays_shift]
    congr 1
    rw [Prod.mk.injEq, Prod.mk.injEq]
    exact ⟨by omega, by omega, rfl⟩

/-- C1 (amended: the claim as stated fails at the minimum representable
date, see the counterexample; every other well-formed day is covered).
The streak transition of `mark_day_complete`: when the stored
`last_completed_day` differs from the well-formed day `day` — `day`
not being `0001-01-01`, where the program's date subtraction raises
`OverflowError` and the transaction rolls back — the new
`current_streak` is the old one plus 1 exactly when the stored
`last_completed_day` is `day` minus one calendar day, and 1 otherwise
(gap or no prior row); consequently marking the consecutive days
`d, d+1, …, d+k` once each from no prior row, `d` later than the
minimum date, yields `current_streak = k + 1` and
`best_streak ≥ k + 1`. -/
theorem mark_day_complete_transition :
    (∀ (s : Store) (c u : Int) (day : String) (d : Date) (cur bst : Nat)
       (last : Option String),
      isoToDate day = some d →
      d ≠ ⟨1, 1, 1⟩ →
      (s.streaks (c, u)).getD (0, 0, none) = (cur, bst, last) →
      last ≠ some day →
      ∃ s1, mark_day_complete s c u day =
          some (((if last = some ((Date.pred d).iso) then cur + 1 else 1),
                 max bst (if last = some ((Date.pred d).iso) then cur + 1 else 1),
                 some day), s1) ∧
        s1.streaks (c, u) =
          some ((if last = some ((Date.pred d).iso) then cur + 1 else 1),
                max bst (if last = some ((Date.pred d).iso) then cur + 1 else 1),
                some day)) ∧
    (∀ (d : Date) (k : Nat) (c u : Int) (s : Store),
      d.validB = true → d ≠ ⟨1, 1, 1⟩ → d.year + k ≤ 9999 → s.streaks (c, u) = none →
      ∃ s1, markDays s c u (consecDays d k) = some s1 ∧
        ∃ bst, s1.streaks (c, u) = some (k + 1, bst, some ((d.addDays k).iso)) ∧
          k + 1 ≤ bst) := by
  constructor
  · intro s c u day d cur bst last hpd hmin hrow hne
    refine ⟨_, mark_gap_or_next s c u day d cur bst last hrow hne hpd hmin, ?_⟩
    simp
  · intro d k c u s hv hmin hy hrow
    have hpd : isoToDate d.iso = some d := isoToDate_iso _ (valid_small hv) hv
    have hrow' : (s.streaks (c, u)).getD (0, 0, none) = (0, 0, none) := by
      rw [hrow]; rfl
    have hmark := mark_gap_or_next s c u d.iso d 0 0 none hrow' (by simp) hpd hmin
    rw [if_neg (by simp)] at hmark
    have hmax : max 0 1 = 1 := rfl
    rw [hmax] at hmark
    rw [consecDays_cons]
    simp only [markDays, hmark]
    have hrow2 : ({ s with streaks := fun k =>
        if k = (c, u) then some (1, 1, some d.iso) else s.streaks k } :
          Store).streaks (c, u) = some (1, 1, some d.iso) := by
      simp
    obtain ⟨s1, hms, hrow1⟩ := markConsec c u k d 1 _ hv hy hrow2
    refine ⟨s1, hms, k + 1, ?_, Nat.le_refl _⟩
    rw [hrow1]
    have hc : 1 + k = k + 1 := by omega
    rw [hc]

theorem mark_day_complete_transition_witness :
    ∃ s1, markDays Store.empty 1 2 (consecDays ⟨2024, 1, 1⟩ 2) = some s1 ∧
      ∃ bst, s1.streaks (1, 2) = some (2 + 1, bst, some ((Date.addDays ⟨2024, 1, 1⟩ 2).iso)) ∧
        2 + 1 ≤ bst :=
  mark_day_complete_transition.2 ⟨2024, 1, 1⟩ 2 1 2 Store.empty (by decide) (by decide)
    (by decide) rfl

/-- C1 counterexample: `"0001-01-01"` is a well-formed ISO date with no
stored row equal to it, yet `mark_day_complete` raises (Python's
`OverflowError` from `date.min - timedelta(days=1)`, modelled `none`)
and commits nothing, instead of setting `current_streak` to 1 as the
claim as stated asserts. -/
theorem mark_day_complete_transition_cex :
    isoToDate ("0001-01-01") = some ⟨1, 1, 1⟩ ∧
    mark_day_complete Store.empty 1 2 ("0001-01-01") = none ∧
    ¬ ∃ s1, mark_day_complete Store.empty 1 2 ("0001-01-01") =
        some ((1, max 0 1, some ("0001-01-01")), s1) := by
  refine ⟨by decide, rfl, ?_⟩
  intro hex
  obtain ⟨s1, h⟩ := hex
  have h0 : mark_day_complete Store.empty 1 2 ("0001-01-01") = none := rfl
  rw [h0] at h
  simp at h

/-! ## Claim C3: the streaks invariant and best-streak monotonicity -/

/-- Record-projection helper for the streak updates. -/
theorem streaks_update (s : Store) (f : Int × Int → Option StreakRow) :
    ({ s with streaks := f } : Store).streaks = f := rfl

/-- Shared helper: one successful `mark_day_complete` call never
decreases any stored `best_streak`. -/
theorem mark_best_mono (s : Store) (c u : Int) (day : String) (t : StreakRow) (s1 : Store)
    (h : mark_day_complete s c u day = some (t, s1)) :
    ∀ c1 u1 : Int, bestOf s c1 u1 ≤ bestOf s1 c1 u1 := by
  intro c1 u1
  simp only [mark_day_complete] at h
  split_ifs at h with hc
  · simp only [Option.some.injEq, Prod.mk.injEq] at h
    rw [← h.2]
  · rcases hd : isoToDate day with _ | d
    · rw [hd] at h
      simp at h
    · rw [hd] at h
      rcases hmd : d.minusOneDay with _ | yd
      · simp [hmd] at h
      · simp only [hmd, Option.some.injEq, Prod.mk.injEq] at h
        rw [← h.2]
        unfold bestOf
        rw [streaks_update]
        by_cases hk : ((c1, u1) : Int × Int) = (c, u)
        · rw [hk]
          simp
        · simp [hk]

/-- C3.  In every store reachable from the empty database,
`best_streak ≥ current_streak` and a positive `current_streak` implies
a set `last_day`; moreover no sequence of `mark_day_complete` calls
ever decreases a stored `best_streak`. -/
theorem streak_invariant_best_monotone :
    (∀ s : Store, Reachable s → StreakInv s) ∧
    (∀ (s : Store) (c u : Int) (days : List String) (s1 : Store),
      markDays s c u days = some s1 →
      ∀ c1 u1 : Int, bestOf s c1 u1 ≤ bestOf s1 c1 u1) := by
  constructor
  · intro s hr
    induction hr with
    | empty =>
      intro c1 u1 cur bst last h
      simp [Store.empty] at h
    | record s c u b _ ih => exact ih
    | inc s c u day _ ih => exact ih
    | notifyTime s c u h m tz _ ih => exact ih
    | name s c u n _ ih =>
      intro c1 u1 cur bst last hrow
      unfold set_user_name at hrow
      split_ifs at hrow
      · exact ih c1 u1 cur bst last hrow
      · exact ih c1 u1 cur bst last hrow
    | mark s c u day t s1 _ hmark ih =>
      intro c1 u1 cur bst last hrow
      simp only [mark_day_complete] at hmark
      split_ifs at hmark with hc
      · simp only [Option.some.injEq, Prod.mk.injEq] at hmark
        rw [← hmark.2] at hrow
        exact ih c1 u1 cur bst last hrow
      · rcases hd : isoToDate day with _ | d
        · rw [hd] at hmark
          simp at hmark
        · rw [hd] at hmark
          rcases hmd : d.minusOneDay with _ | yd
          · simp [hmd] at hmark
          · simp only [hmd, Option.some.injEq, Prod.mk.injEq] at hmark
            rw [← hmark.2] at hrow
            rw [streaks_update] at hrow
            by_cases hk : ((c1, u1) : Int × Int) = (c, u)
            · rw [if_pos hk] at hrow
              simp only [Option.some.injEq, Prod.mk.injEq] at hrow
              obtain ⟨e1, e2, e3⟩ := hrow
              subst e1
              subst e2
              subst e3
              refine ⟨Nat.le_max_right _ _, fun _ => by simp⟩
            · rw [if_neg hk] at hrow
              exact ih c1 u1 cur bst last hrow
  · intro s c u days
    revert s
    induction days with
    | nil =>
      intro s s1 h c1 u1
      simp only [markDays, Option.some.injEq] at h
      rw [h]
    | cons day rest ih =>
      intro s s1 h c1 u1
      simp only [markDays] at h
      rcases hm : mark_day_complete s c u day with _ | r
      · rw [hm] at h
        simp at h
      · rw [hm] at h
        obtain ⟨t, s2⟩ := r
        exact Nat.le_trans (mark_best_mono s c u day t s2 hm c1 u1) (ih s2 s1 h c1 u1)

theorem streak_invariant_best_monotone_witness :
    (1 ≤ 1 ∧ (0 < 1 → (some ("2024-05-05") : Option String) ≠ none)) ∧
    bestOf Store.empty 1 2 ≤ bestOf wStore2 1 2 :=
  ⟨streak_invariant_best_monotone.1 wStore2
      (Reachable.mark Store.empty 1 2 ("2024-05-05") ((1, 1, some ("2024-05-05"))) wStore2
        Reachable.empty rfl) 1 2 1 1 (some ("2024-05-05")) rfl,
   streak_invariant_best_monotone.2 Store.empty 1 2 [("2024-05-05")] wStore2 rfl 1 2⟩

/-! ## Claim C10: back-dated `mark_day_complete` calls -/

/-- C10 (amended: the claim as stated fails at the minimum
representable date, see the counterexample; every other valid earlier
day is covered).  Calling `mark_day_complete` with a valid day strictly
earlier than the stored `last_completed_day` — the day not being
`0001-01-01`, where the program's date subtraction raises
`OverflowError` and the transaction rolls back — neither raises nor is
ignored: the previous day of `dd` can never equal the later stored
day, so the streak resets to 1 and `last_day` moves backwards to
`dd`. -/
theorem mark_day_complete_backdated :
    ∀ (s : Store) (c u : Int) (dd dl : Date) (cur bst : Nat),
      dd.validB = true → dl.validB = true → dd ≠ ⟨1, 1, 1⟩ → dd.key < dl.key →
      s.streaks (c, u) = some (cur, bst, some dl.iso) →
      ∃ s1, mark_day_complete s c u dd.iso = some ((1, max bst 1, some dd.iso), s1) ∧
        s1.streaks (c, u) = some (1, max bst 1, some dd.iso) := by
  intro s c u dd dl cur bst hvd hvl hmin hkey hrow
  have hrow' : (s.streaks (c, u)).getD (0, 0, none) = (cur, bst, some dl.iso) := by
    rw [hrow]; rfl
  have hne : (some dl.iso : Option String) ≠ some dd.iso := by
    intro hii
    have : dl = dd := iso_inj _ _ (valid_small hvl) (valid_small hvd) (Option.some.inj hii)
    rw [this] at hkey
    omega
  have hpd : isoToDate dd.iso = some dd := isoToDate_iso _ (valid_small hvd) hvd
  have hmark := mark_gap_or_next s c u dd.iso dd cur bst (some dl.iso) hrow' hne hpd hmin
  have hyne : (some dl.iso : Option String) ≠ some ((Date.pred dd).iso) := by
    intro hii
    have he : dl = Date.pred dd :=
      iso_inj _ _ (valid_small hvl) (pred_small (valid_small hvd)) (Option.some.inj hii)
    have hlt := key_pred_lt hvd
    rw [← he] at hlt
    omega
  rw [if_neg hyne] at hmark
  refine ⟨_, hmark, ?_⟩
  rw [streaks_update]
  simp

theorem mark_day_complete_backdated_witness :
    ∃ s1, mark_day_complete wStore3 1 2 (Date.iso ⟨2024, 3, 1⟩) =
        some ((1, max 5 1, some (Date.iso ⟨2024, 3, 1⟩)), s1) ∧
      s1.streaks (1, 2) = some (1, max 5 1, some (Date.iso ⟨2024, 3, 1⟩)) :=
  mark_day_complete_backdated wStore3 1 2 ⟨2024, 3, 1⟩ ⟨2024, 3, 10⟩ 3 5
    (by decide) (by decide) (by decide) (by decide) (by rfl)

/-- C10 counterexample: with a stored later `last_day`, the valid
strictly earlier day `0001-01-01` makes `mark_day_complete` raise
(Python's `OverflowError` from `date.min - timedelta(days=1)`,
modelled `none`) and roll back, instead of resetting the streak to 1
as the claim as stated asserts. -/
theorem mark_day_complete_backdated_cex :
    (⟨1, 1, 1⟩ : Date).validB = true ∧
    (⟨1, 1, 1⟩ : Date).key < (⟨2024, 3, 10⟩ : Date).key ∧
    wStore3.streaks (1, 2) = some (3, 5, some (Date.iso ⟨2024, 3, 10⟩)) ∧
    mark_day_complete wStore3 1 2 (Date.iso ⟨1, 1, 1⟩) = none ∧
    ¬ ∃ s1, mark_day_complete wStore3 1 2 (Date.iso ⟨1, 1, 1⟩) =
        some ((1, max 5 1, some (Date.iso ⟨1, 1, 1⟩)), s1) := by
  refine ⟨by decide, by decide, rfl, rfl, ?_⟩
  intro hex
  obtain ⟨s1, h⟩ := hex
  have h0 : mark_day_complete wStore3 1 2 (Date.iso ⟨1, 1, 1⟩) = none := rfl
  rw [h0] at h
  simp at h

/-! ## Claim C7: the transaction scope -/

/-- C7.  `storage._db`: a raised failure rolls the transaction back
(the observable store is the entry store) and propagates; normal
completion commits; exactly one of commit/rollback happens on every
exit path. -/
theorem db_transaction_scope :
    ∀ (α : Type) (s : Store) (work : Store → Except String (α × Store)),
      (∀ e, work s = .error e → _db s work = (.error e, s, .rolledBack)) ∧
      (∀ a s1, work s = .ok (a, s1) → _db s work = (.ok a, s1, .committed)) ∧
      ((_db s work).2.2 = .committed ∨ (_db s work).2.2 = .rolledBack) := by
  intro α s work
  refine ⟨?_, ?_, ?_⟩
  · intro e he
    unfold _db
    rw [he]
  · intro a s1 ha
    unfold _db
    rw [ha]
  · unfold _db
    rcases hw : work s with e | p
    · simp
    · simp

theorem db_transaction_scope_witness :
    _db Store.empty workErr = (.error ("boom"), Store.empty, .rolledBack) ∧
    _db Store.empty workOk = (.ok 7, Store.empty, .committed) :=
  ⟨(db_transaction_scope Nat Store.empty workErr).1 ("boom") rfl,
   (db_transaction_scope Nat Store.empty workOk).2.1 7 Store.empty rfl⟩

/-! ## Claim C6: corruption detection and recovery in `init_db` -/

/-- C6.  When the existing database file fails the integrity probe:
if it is not locked (the first rename attempt succeeds), `init_db`
succeeds, the corrupt content is preserved at the `.corrupt` sibling,
and the database in use afterward is a fresh one carrying the complete
schema; if every one of the 5 rename and 5 delete attempts hits a lock
error, `init_db` fails with `StoreLockedError` (modelled as `none`). -/
theorem init_db_corruption_recovery :
    (∀ (fs : FsState) (f : FileContent) (rout dout : Nat → FsOutcome),
      fs.dbFile = some f → f.intact = false → rout 0 = FsOutcome.ok →
      init_db fs rout dout =
        some ⟨some ⟨0, true, create_or_migrate_schema []⟩, some f⟩ ∧
      schemaCompleteB (create_or_migrate_schema []) = true) ∧
    (∀ (fs : FsState) (f : FileContent) (rout dout : Nat → FsOutcome),
      fs.dbFile = some f → f.intact = false →
      (∀ i, rout i = FsOutcome.permError) → (∀ i, dout i = FsOutcome.permError) →
      init_db fs rout dout = none) := by
  constructor
  · intro fs f rout dout hf hi hr0
    have hint : integrity_ok fs = false := by
      simp [integrity_ok, hf, hi]
    refine ⟨?_, by decide⟩
    have hrot : rotateAttempts fs rout 0 5 = some ⟨none, some f⟩ := by
      simp [rotateAttempts, hf, hr0]
    simp [init_db, try_rotate_or_remove, connectFs, hrot, hf, hint]
  · intro fs f rout dout hf hi hr hd
    have hint : integrity_ok fs = false := by
      simp [integrity_ok, hf, hi]
    have hrot : rotateAttempts fs rout 0 5 = none := by
      simp [rotateAttempts, hf, hr 0, hr 1, hr 2, hr 3, hr 4]
    have hdel : deleteAttempts fs dout 0 5 = none := by
      simp [deleteAttempts, hf, hd 0, hd 1, hd 2, hd 3, hd 4]
    simp [init_db, try_rotate_or_remove, hrot, hdel, hf, hint]

theorem init_db_corruption_recovery_witness :
    (init_db ⟨some ⟨7, false, []⟩, none⟩ (fun _ => FsOutcome.ok) (fun _ => FsOutcome.ok) =
        some ⟨some ⟨0, true, create_or_migrate_schema []⟩, some ⟨7, false, []⟩⟩ ∧
      schemaCompleteB (create_or_migrate_schema []) = true) ∧
    init_db ⟨some ⟨7, false, []⟩, none⟩ (fun _ => FsOutcome.permError)
      (fun _ => FsOutcome.permError) = none :=
  ⟨init_db_corruption_recovery.1 ⟨some ⟨7, false, []⟩, none⟩ ⟨7, false, []⟩ _ _ rfl rfl rfl,
   init_db_corruption_recovery.2 ⟨some ⟨7, false, []⟩, none⟩ ⟨7, false, []⟩ _ _ rfl rfl
     (fun _ => rfl) (fun _ => rfl)⟩

/-! ## Claim C8: idempotent schedule reconciliation -/

theorem listIsPre_append (l r : List Char) : listIsPre l (l ++ r) = true := by
  induction l with
  | nil => rfl
  | cons a as ih =>
    show ((a == a) && listIsPre as (as ++ r)) = true
    simp [ih]

theorem jobName_ne_empty (c u : Int) : jobName c u ≠ ("" : String) := by
  intro h
  have hd : (jobName c u).data = ("" : String).data := by rw [h]
  simp [jobName] at hd

theorem strStartsWith_jobName (c u : Int) : strStartsWith (jobName c u) dailyTag = true := by
  unfold strStartsWith jobName dailyTag
  exact listIsPre_append _ _

/-- Every job installed by the reconciler is tagged as a daily
reminder. -/
theorem isDailyJob_mk (row : Int × Int × Nat × Nat × String) :
    isDailyJob (mkDailyJob row) = true := by
  unfold isDailyJob mkDailyJob
  have h1 := jobName_ne_empty row.1 row.2.1
  simp [strStartsWith_jobName, h1]

/-- The daily jobs after one reconciliation are exactly one per
persisted reminder row, in order. -/
theorem dailyJobsOf_reschedule (s : Store) (jq : JobQueue) :
    dailyJobsOf (reschedule_all_jobs s jq) = (iter_all_notify_prefs s).map mkDailyJob := by
  unfold dailyJobsOf reschedule_all_jobs
  rw [List.filter_append]
  have h1 : (jq.filter (fun j => !(isDailyJob j))).filter isDailyJob = [] := by
    rw [List.filter_filter]
    have : ∀ j : Job, (isDailyJob j && !(isDailyJob j)) = false := by
      intro j
      cases isDailyJob j <;> rfl
    simp [this]
  have h2 : ((iter_all_notify_prefs s).map mkDailyJob).filter isDailyJob =
      (iter_all_notify_prefs s).map mkDailyJob := by
    rw [List.filter_eq_self]
    intro j hj
    rw [List.mem_map] at hj
    obtain ⟨row, _, hrow⟩ := hj
    rw [← hrow]
    exact isDailyJob_mk row
  rw [h1, h2, List.nil_append]

/-- A row yielded by `iter_all_notify_prefs` keeps its table key. -/
theorem prefRowFun_key (p : (Int × Int) × PrefRow) (r : Int × Int × Nat × Nat × String)
    (h : prefRowFun p = some r) : ((r.1, r.2.1) : Int × Int) = p.1 := by
  unfold prefRowFun at h
  split at h
  · simp only [Option.some.injEq] at h
    rw [← h]
  · exact absurd h (by simp)

theorem keys_filterMap_sub (l : List ((Int × Int) × PrefRow)) :
    ∀ x ∈ (l.filterMap prefRowFun).map (fun r => ((r.1, r.2.1) : Int × Int)),
      x ∈ l.map Prod.fst := by
  intro x hx
  rw [List.mem_map] at hx
  obtain ⟨r, hr, hk⟩ := hx
  rw [List.mem_filterMap] at hr
  obtain ⟨p, hp, hg⟩ := hr
  rw [List.mem_map]
  exact ⟨p, hp, by rw [← hk, prefRowFun_key p r hg]⟩

/-- Key uniqueness (the table's primary key) survives the filter. -/
theorem keys_filterMap_nodup (l : List ((Int × Int) × PrefRow))
    (h : (l.map Prod.fst).Nodup) :
    ((l.filterMap prefRowFun).map (fun r => ((r.1, r.2.1) : Int × Int))).Nodup := by
  induction l with
  | nil => simp
  | cons p t ih =>
    simp only [List.map_cons, List.nodup_cons] at h
    obtain ⟨hnm, hnd⟩ := h
    rw [List.filterMap_cons]
    rcases hg : prefRowFun p with _ | r
    · exact ih hnd
    · rw [List.map_cons, List.nodup_cons]
      refine ⟨?_, ih hnd⟩
      intro hmem
      have := keys_filterMap_sub t _ hmem
      rw [prefRowFun_key p r hg] at this
      exact hnm this

/-- C8.  `reconcile_all` is idempotent on the timer facility's
active-job set: running it twice equals running it once, afterwards the
active daily-reminder jobs are exactly one deterministically named job
per persisted reminder row, and (the table key being a primary key)
they contain no duplicates. -/
theorem reconcile_all_idempotent :
    ∀ (s : Store) (jq : JobQueue),
      reschedule_all_jobs s (reschedule_all_jobs s jq) = reschedule_all_jobs s jq ∧
      dailyJobsOf (reschedule_all_jobs s jq) = (iter_all_notify_prefs s).map mkDailyJob ∧
      ((s.prefs.map Prod.fst).Nodup → (dailyJobsOf (reschedule_all_jobs s jq)).Nodup) := by
  intro s jq
  refine ⟨?_, dailyJobsOf_reschedule s jq, ?_⟩
  · conv_lhs => rw [reschedule_all_jobs, reschedule_all_jobs]
    rw [List.filter_append]
    have ha : (jq.filter (fun j => !(isDailyJob j))).filter (fun j => !(isDailyJob j)) =
        jq.filter (fun j => !(isDailyJob j)) := by
      rw [List.filter_filter]
      simp
    have hb : ((iter_all_notify_prefs s).map mkDailyJob).filter (fun j => !(isDailyJob j)) =
        [] := by
      rw [List.filter_eq_nil_iff]
      intro j hj
      rw [List.mem_map] at hj
      obtain ⟨row, _, hrow⟩ := hj
      rw [← hrow]
      simp [isDailyJob_mk row]
    rw [ha, hb, List.append_nil]
    rfl
  · intro hnd
    rw [dailyJobsOf_reschedule]
    apply List.Nodup.of_map (fun j => ((j.chatId, j.userId) : Int × Int))
    rw [List.map_map]
    exact keys_filterMap_nodup s.prefs hnd

theorem reconcile_all_idempotent_witness :
    reschedule_all_jobs wStoreP (reschedule_all_jobs wStoreP []) =
      reschedule_all_jobs wStoreP [] ∧
    dailyJobsOf (reschedule_all_jobs wStoreP []) = (iter_all_notify_prefs wStoreP).map mkDailyJob ∧
    (dailyJobsOf (reschedule_all_jobs wStoreP [])).Nodup :=
  ⟨(reconcile_all_idempotent wStoreP []).1,
   (reconcile_all_idempotent wStoreP []).2.1,
   (reconcile_all_idempotent wStoreP []).2.2 (by decide)⟩

/-! ## Claim C9: `unnotify` cancels only the live timer -/

/-- C9.  The `unnotify` handler removes exactly the jobs named for
`(chat, user)` from the queue and leaves the `user_prefs` table
untouched; consequently, whenever the persisted reminder row is still
present, the next reconciliation re-installs the user's daily job. -/
theorem unnotify_preserves_pref :
    ∀ (s : Store) (jq : JobQueue) (c u : Int) (dn : String),
      (unnotify s jq c u dn).1.prefs = s.prefs ∧
      (unnotify s jq c u dn).2.1 = jq.filter (fun j => !(j.name == jobName c u)) ∧
      (∀ (h m : Nat) (tz : String),
        lookupKey s.prefs (c, u) = some (some h, some m, some tz) →
        mkDailyJob (c, u, h, m, tz) ∈
          reschedule_all_jobs (unnotify s jq c u dn).1 (unnotify s jq c u dn).2.1) := by
  intro s jq c u dn
  have hprefs : (unnotify s jq c u dn).1.prefs = s.prefs := by
    unfold unnotify set_user_name
    split_ifs <;> rfl
  refine ⟨hprefs, rfl, ?_⟩
  intro h m tz hlk
  unfold reschedule_all_jobs
  rw [List.mem_append]
  right
  rw [List.mem_map]
  refine ⟨(c, u, h, m, tz), ?_, rfl⟩
  unfold iter_all_notify_prefs
  rw [hprefs, List.mem_filterMap]
  unfold lookupKey at hlk
  rcases hq : s.prefs.find? (fun p => p.1 == (c, u)) with _ | q
  · rw [hq] at hlk
    exact absurd hlk (by simp)
  · rw [hq] at hlk
    simp only [Option.map_some', Option.some.injEq] at hlk
    have hmem : q ∈ s.prefs := List.mem_of_find?_eq_some hq
    have hkey : q.1 = (c, u) := by
      have := List.find?_some hq
      simpa using this
    refine ⟨q, hmem, ?_⟩
    have hq2 : q = ((c, u), (some h, some m, some tz)) := by
      rcases q with ⟨qk, qv⟩
      simp only at hkey hlk
      rw [hkey, hlk]
    rw [hq2]
    rfl

theorem unnotify_preserves_pref_witness :
    (unnotify wStoreP wJq 1 2 ("Ann")).1.prefs = wStoreP.prefs ∧
    (unnotify wStoreP wJq 1 2 ("Ann")).2.1 =
      wJq.filter (fun j => !(j.name == jobName 1 2)) ∧
    mkDailyJob (1, 2, 7, 30, ("Asia/Kolkata")) ∈
      reschedule_all_jobs (unnotify wStoreP wJq 1 2 ("Ann")).1
        (unnotify wStoreP wJq 1 2 ("Ann")).2.1 :=
  ⟨(unnotify_preserves_pref wStoreP wJq 1 2 ("Ann")).1,
   (unnotify_preserves_pref wStoreP wJq 1 2 ("Ann")).2.1,
   (unnotify_preserves_pref wStoreP wJq 1 2 ("Ann")).2.2 7 30 ("Asia/Kolkata") rfl⟩

end ContribQuiz
